import Mathlib

/-!
Verification of the merge/deduplication core of the plotgen scripts
(`merge_qts_sqlite_list.py`, `extract_duplicate_rows_to_sqlite.py`).

The tabular data is embedded shallowly: an SQLite cell is a storage-class
value (NULL, INTEGER or TEXT), a record of `credible_set_table` is its
synthetic `id` together with the list of the 17 non-id attribute values,
and the SQL statements of the two engines become list functions.
-/

namespace Plotgen

/-- Storage-class value of one SQLite cell: NULL, INTEGER storage or TEXT
storage.  (The FLOAT columns are not needed by any property proved here;
a REAL cell can be represented as TEXT without loss for these proofs.) -/
inductive SQLiteVal where
  | vNull : SQLiteVal
  | vInt : Int → SQLiteVal
  | vText : String → SQLiteVal
deriving DecidableEq

open SQLiteVal

/-- The 17 non-id columns of `credible_set_table`, in schema order
(`NON_ID_COLUMNS` in both scripts). -/
def NON_ID_COLUMNS : List String :=
  ["study_id", "study_label", "dataset_id", "molecular_trait_id", "gene_id",
   "gene_name", "variant", "rsid", "quantification_method", "credible_set",
   "credible_set_size", "pip", "pvalue", "beta", "se", "dataset_label",
   "plot_variant"]

/-- The SQL expression `ifnull(CAST(v AS TEXT), '__NULL__')` used in the
unique index `uq_full_row_tmp` of the merge engine: NULL maps to the fixed
sentinel, any other storage class is rendered as its text form. -/
def canonVal : SQLiteVal → String
  | vNull => "__NULL__"
  | vInt i => toString i
  | vText s => s

/-- Canonicalized identity key: the tuple of canonicalized values of the 17
non-id columns. -/
def canonKey (attrs : List SQLiteVal) : List String := attrs.map canonVal

/-- One record of a `credible_set_table`: its synthetic integer `id` and the
values of the 17 non-id columns, in `NON_ID_COLUMNS` order. -/
structure Row where
  id : Nat
  attrs : List SQLiteVal
deriving DecidableEq

/-- A record conforms to the schema when it carries one value per non-id
column. -/
def Row.wellFormed (r : Row) : Prop := r.attrs.length = NON_ID_COLUMNS.length

/-- The query clause `ORDER BY id` (ascending) over a table of rows. -/
def sortById (rows : List Row) : List Row :=
  List.insertionSort (fun a b => a.id ≤ b.id) rows

instance : IsTotal Row (fun a b => a.id ≤ b.id) :=
  ⟨fun a b => Nat.le_total a.id b.id⟩

instance : IsTrans Row (fun a b => a.id ≤ b.id) :=
  ⟨fun _ _ _ h1 h2 => Nat.le_trans h1 h2⟩

/-- A merged row: the rowid assigned by the output store, with the 17
attribute values. -/
abbrev MergedRow := Nat × List SQLiteVal

/-- Statement `INSERT OR IGNORE` for one record into the output `credible_set_table`:
the insert is silently ignored when the canonicalized key already appears in
the unique index `uq_full_row_tmp`; otherwise the row is stored under the
next rowid (the table starts empty and only grows, so SQLite's max-rowid+1
assignment is length+1). -/
def insertRow (store : List MergedRow) (attrs : List SQLiteVal) : List MergedRow :=
  if ∃ p ∈ store, canonKey p.2 = canonKey attrs then store
  else store ++ [(store.length + 1, attrs)]

/-- Function `insert_new_rows`: `INSERT OR IGNORE INTO credible_set_table ... SELECT
... FROM src.credible_set_table ORDER BY id`. -/
def insert_new_rows (store : List MergedRow) (source : List Row) : List MergedRow :=
  (sortById source).foldl (fun st r => insertRow st r.attrs) store

/-- Function `merge_inputs`: attach each source in list order, record its `COUNT(*)`
and bulk-insert its rows; returns the per-file counts with the final store. -/
def merge_inputs (sources : List (List Row)) : List Nat × List MergedRow :=
  sources.foldl
    (fun acc src => (acc.1 ++ [src.length], insert_new_rows acc.2 src)) ([], [])

/-- The output store produced by `merge_inputs`. -/
def mergeStore (sources : List (List Row)) : List MergedRow :=
  (merge_inputs sources).2

/-- Per-source row counts reported by `main` (`COUNT(*)` of each source). -/
def per_file_counts (sources : List (List Row)) : List Nat :=
  (merge_inputs sources).1

/-- Value `total_input_rows` of `main`: sum of the per-source counts. -/
def total_input_rows (sources : List (List Row)) : Nat :=
  (per_file_counts sources).sum

/-- Value `merged_rows` of `main`: `SELECT COUNT(*)` on the final output table. -/
def merged_rows (sources : List (List Row)) : Nat :=
  (mergeStore sources).length

/-- Value `duplicate_rows_removed` of `main`: total input rows minus merged rows. -/
def duplicate_rows_removed (sources : List (List Row)) : Nat :=
  total_input_rows sources - merged_rows sources

/-- The partition of a row under `PARTITION BY` the 17 non-id columns: the
rows of the table whose stored attribute values are identical (SQLite
partitioning treats NULL as equal to NULL, which raw constructor equality
gives directly). -/
def groupRows (rows : List Row) (r : Row) : List Row :=
  rows.filter (fun s => decide (s.attrs = r.attrs))

/-- Window expression `ROW_NUMBER() OVER (PARTITION BY the 17 columns ORDER BY id)` for one
row: one plus the number of partition members with a smaller id (ids are
unique within a source, `id INTEGER PRIMARY KEY`). -/
def rowNumber (rows : List Row) (r : Row) : Nat :=
  1 + (groupRows rows r).countP (fun s => decide (s.id < r.id))

/-- Window expression `COUNT(*) OVER (PARTITION BY the 17 columns)` for one row. -/
def grpCount (rows : List Row) (r : Row) : Nat :=
  (groupRows rows r).length

/-- Core query of `extract_duplicates_for_file`: keep the rows whose
partition has more than one member and whose rank is at most 2, emitted
`ORDER BY id` with the original ids preserved. -/
def extract_duplicates_for_file (rows : List Row) : List Row :=
  sortById (rows.filter (fun r => decide (1 < grpCount rows r ∧ rowNumber rows r ≤ 2)))

/-- Duplicate test of the merge engine: equality of the canonicalized unique
index expression over the 17 non-id columns. -/
def mergeDupTest (a b : List SQLiteVal) : Prop := canonKey a = canonKey b

/-- Grouping test of the extraction engine: two rows fall in the same
partition iff every stored value is identical. -/
def extractGroupTest (a b : List SQLiteVal) : Prop := a = b

/-- Abstract file-system view seen by `read_sqlite_paths`: the content of the
input list file when it exists, and the set of paths that exist. -/
structure ListFS where
  listFile : Option (List String)
  existing : List String

/-- Predicate `path.is_absolute()` on POSIX. -/
def isAbsolutePath (p : String) : Bool :=
  match p.data with
  | [] => false
  | c :: _ => c = '/'

/-- Call `Path(line).resolve()`: a relative path is resolved against the current
working directory, an absolute path resolves to itself (symlink and dot
normalization are not modelled). -/
def resolvePath (cwd line : String) : String :=
  if isAbsolutePath line then line else cwd ++ "/" ++ line

/-- Python `str.strip()`: remove leading and trailing whitespace characters. -/
def stripString (s : String) : String :=
  String.mk (((s.data.dropWhile Char.isWhitespace).reverse.dropWhile
    Char.isWhitespace).reverse)

/-- One iteration of the line loop of `read_sqlite_paths`: strip the line,
skip it when blank, resolve it, then fail when the resolved path is not
absolute or does not exist. -/
def readListStep (fs : ListFS) (cwd : String) (acc : Except String (List String))
    (rawLine : String) : Except String (List String) :=
  match acc with
  | Except.error e => Except.error e
  | Except.ok paths =>
    let line := stripString rawLine
    if line = "" then Except.ok paths
    else
      let path := resolvePath cwd line
      if isAbsolutePath path = false then
        Except.error ("Expected absolute path in input list, got: " ++ line)
      else if path ∉ fs.existing then
        Except.error ("Input SQLite file does not exist: " ++ path)
      else Except.ok (paths ++ [path])

/-- Function `read_sqlite_paths` of `merge_qts_sqlite_list.py`: fail when the list
file is missing, process its lines in order, and fail when no path was
collected. -/
def read_sqlite_paths (fs : ListFS) (cwd : String) : Except String (List String) :=
  match fs.listFile with
  | none => Except.error "Input list file does not exist"
  | some lines =>
    match lines.foldl (readListStep fs cwd) (Except.ok []) with
    | Except.error e => Except.error e
    | Except.ok [] => Except.error "Input list file has no SQLite paths"
    | Except.ok paths => Except.ok paths

/-- Function `read_sqlite_paths` of `extract_duplicate_rows_to_sqlite.py`, a verbatim
copy of the merge engine's function. -/
def read_sqlite_paths_extractor (fs : ListFS) (cwd : String) : Except String (List String) :=
  match fs.listFile with
  | none => Except.error "Input list file does not exist"
  | some lines =>
    match lines.foldl (readListStep fs cwd) (Except.ok []) with
    | Except.error e => Except.error e
    | Except.ok [] => Except.error "Input list file has no SQLite paths"
    | Except.ok paths => Except.ok paths

/-- Clearing of the output destination in `main`: `output_sqlite.unlink()`
when the file exists, so afterwards no file is present either way. -/
def clearOutput : Option (List MergedRow) → Option (List MergedRow)
  | some _ => none
  | none => none

/-- Call `sqlite3.connect` on the cleared destination: opens the stored table when
a file is present, otherwise starts from an empty store. -/
def connectStore : Option (List MergedRow) → List MergedRow
  | some store => store
  | none => []

/-- Function `main` of `merge_qts_sqlite_list.py`: validate the input list before the
output destination is touched, then clear the destination, create the table
and merge all sources; returns the run result with the final state of the
destination. -/
def mainMerge (fs : ListFS) (cwd : String) (contents : String → List Row)
    (prevOutput : Option (List MergedRow)) :
    Except String (List MergedRow) × Option (List MergedRow) :=
  match read_sqlite_paths fs cwd with
  | Except.error e => (Except.error e, prevOutput)
  | Except.ok paths =>
    let store :=
      (paths.map contents).foldl insert_new_rows (connectStore (clearOutput prevOutput))
    (Except.ok store, some store)

/-- The order in which the merge engine encounters records: each source is
read `ORDER BY id`, and the sources are processed in list order. -/
def processedOrder (sources : List (List Row)) : List Row :=
  (sources.map sortById).flatten

/-- Attribute tuples held by the output store, in rowid order. -/
def storeAttrs (store : List MergedRow) : List (List SQLiteVal) :=
  store.map Prod.snd

/-- Attribute values on which the sentinel canonicalization is injective:
NULL itself, or text different from the sentinel.  INTEGER storage is
excluded since CAST renders it as text. -/
def safeVal : SQLiteVal → Bool
  | vNull => true
  | vInt _ => false
  | vText s => decide (s ≠ "__NULL__")

/-- Attribute tuple with one distinguishing text value in the first column,
the 16 remaining optional columns NULL. -/
def mkAttrs (s : String) : List SQLiteVal :=
  vText s :: List.replicate 16 vNull

/-- Three five-row sources with three cross-source duplicate identities
(`a` repeats in source 2, `b` and `f` repeat in source 3). -/
def exampleSources : List (List Row) :=
  [[⟨1, mkAttrs "a"⟩, ⟨2, mkAttrs "b"⟩, ⟨3, mkAttrs "c"⟩, ⟨4, mkAttrs "d"⟩,
    ⟨5, mkAttrs "e"⟩],
   [⟨1, mkAttrs "a"⟩, ⟨2, mkAttrs "f"⟩, ⟨3, mkAttrs "g"⟩, ⟨4, mkAttrs "h"⟩,
    ⟨5, mkAttrs "i"⟩],
   [⟨1, mkAttrs "b"⟩, ⟨2, mkAttrs "f"⟩, ⟨3, mkAttrs "j"⟩, ⟨4, mkAttrs "k"⟩,
    ⟨5, mkAttrs "l"⟩]]

/-- Key tuple that is NULL in its first column. -/
def nullKey : List SQLiteVal := vNull :: List.replicate 16 vNull

/-- Key tuple whose first column holds the literal sentinel text. -/
def sentinelKey : List SQLiteVal := vText "__NULL__" :: List.replicate 16 vNull

/-- A source with one partition of four records, id order scrambled relative
to storage order, and one singleton partition. -/
def capRows : List Row :=
  [⟨1, mkAttrs "g"⟩, ⟨2, mkAttrs "g"⟩, ⟨3, mkAttrs "g"⟩, ⟨4, mkAttrs "g"⟩,
   ⟨5, mkAttrs "s"⟩]

/-- Representative of the four-member partition of `capRows`. -/
def capRep : Row := ⟨1, mkAttrs "g"⟩

instance (a b : List SQLiteVal) : Decidable (mergeDupTest a b) :=
  decidable_of_iff (canonKey a = canonKey b) Iff.rfl

instance (a b : List SQLiteVal) : Decidable (extractGroupTest a b) :=
  decidable_of_iff (a = b) Iff.rfl

theorem sortById_perm (l : List Row) : List.Perm (sortById l) l :=
  List.perm_insertionSort _ l

theorem sortById_sorted (l : List Row) :
    List.Sorted (fun a b => a.id ≤ b.id) (sortById l) :=
  List.sorted_insertionSort _ l

theorem merge_inputs_foldl (sources : List (List Row)) :
    ∀ acc : List Nat × List MergedRow,
      sources.foldl
          (fun acc src => (acc.1 ++ [src.length], insert_new_rows acc.2 src)) acc =
        (acc.1 ++ sources.map List.length, sources.foldl insert_new_rows acc.2) := by
  induction sources with
  | nil => intro acc; simp
  | cons s ss ih => intro acc; simp [ih]

theorem per_file_counts_eq (sources : List (List Row)) :
    per_file_counts sources = sources.map List.length := by
  simp [per_file_counts, merge_inputs, merge_inputs_foldl]

theorem mergeStore_eq_foldl (sources : List (List Row)) :
    mergeStore sources = sources.foldl insert_new_rows [] := by
  simp [mergeStore, merge_inputs, merge_inputs_foldl]

theorem insert_new_rows_eq (st : List MergedRow) (src : List Row) :
    insert_new_rows st src = ((sortById src).map Row.attrs).foldl insertRow st := by
  simp [insert_new_rows, List.foldl_map]

theorem mergeStore_eq_flat (sources : List (List Row)) :
    mergeStore sources = ((processedOrder sources).map Row.attrs).foldl insertRow [] := by
  rw [mergeStore_eq_foldl, processedOrder, List.map_flatten, List.foldl_flatten,
    List.map_map, List.foldl_map]
  congr 1
  funext st s
  rw [insert_new_rows_eq]
  rfl

theorem foldl_insertRow_length (l : List (List SQLiteVal)) :
    ∀ st : List MergedRow, (l.foldl insertRow st).length ≤ st.length + l.length := by
  induction l with
  | nil => intro st; simp
  | cons a l ih =>
    intro st
    have h1 : (insertRow st a).length ≤ st.length + 1 := by
      unfold insertRow; split <;> simp
    calc ((a :: l).foldl insertRow st).length = (l.foldl insertRow (insertRow st a)).length := rfl
      _ ≤ (insertRow st a).length + l.length := ih _
      _ ≤ st.length + 1 + l.length := Nat.add_le_add_right h1 _
      _ = st.length + (a :: l).length := by simp; omega

theorem foldl_insertRow_extends (l : List (List SQLiteVal)) :
    ∀ st : List MergedRow, ∃ t, l.foldl insertRow st = st ++ t := by
  induction l with
  | nil => intro st; exact ⟨[], by simp⟩
  | cons a l ih =>
    intro st
    obtain ⟨t, ht⟩ := ih (insertRow st a)
    by_cases h : ∃ p ∈ st, canonKey p.2 = canonKey a
    · refine ⟨t, ?_⟩
      show List.foldl insertRow (insertRow st a) l = st ++ t
      rwa [insertRow, if_pos h] at ht ⊢
    · refine ⟨(st.length + 1, a) :: t, ?_⟩
      show List.foldl insertRow (insertRow st a) l = st ++ ((st.length + 1, a) :: t)
      rw [insertRow, if_neg h] at ht ⊢
      rw [ht]
      simp

theorem foldl_insert_new_rows_extends (sources : List (List Row)) :
    ∀ st : List MergedRow, ∃ t, sources.foldl insert_new_rows st = st ++ t := by
  induction sources with
  | nil => intro st; exact ⟨[], by simp⟩
  | cons s ss ih =>
    intro st
    obtain ⟨t1, ht1⟩ := foldl_insertRow_extends ((sortById s).map Row.attrs) st
    obtain ⟨t2, ht2⟩ := ih (insert_new_rows st s)
    refine ⟨t1 ++ t2, ?_⟩
    calc (s :: ss).foldl insert_new_rows st = ss.foldl insert_new_rows (insert_new_rows st s) := rfl
      _ = insert_new_rows st s ++ t2 := ht2
      _ = (st ++ t1) ++ t2 := by rw [insert_new_rows_eq, ht1]
      _ = st ++ (t1 ++ t2) := by simp

theorem insertRow_ids (st : List MergedRow) (a : List SQLiteVal)
    (h : st.map Prod.fst = List.range' 1 st.length) :
    (insertRow st a).map Prod.fst = List.range' 1 (insertRow st a).length := by
  unfold insertRow
  split
  · exact h
  · simp [h, List.range'_concat, Nat.add_comm]

theorem foldl_insertRow_ids (l : List (List SQLiteVal)) :
    ∀ st : List MergedRow, st.map Prod.fst = List.range' 1 st.length →
      (l.foldl insertRow st).map Prod.fst = List.range' 1 (l.foldl insertRow st).length := by
  induction l with
  | nil => intro st h; exact h
  | cons a l ih => intro st h; exact ih (insertRow st a) (insertRow_ids st a h)

/-- C6.  Monotonic id reassignment: the rowids of the merged output store are
exactly 1, 2, ..., n in acceptance order, hence strictly increasing and never
reused, and processing further sources only appends rows, leaving every
already assigned id and row unchanged. -/
theorem merge_monotonic_ids (sources more : List (List Row)) :
    (mergeStore sources).map Prod.fst = List.range' 1 (mergeStore sources).length ∧
    ((mergeStore sources).map Prod.fst).Pairwise (fun a b => a < b) ∧
    ∃ t, mergeStore (sources ++ more) = mergeStore sources ++ t := by
  have hids : (mergeStore sources).map Prod.fst = List.range' 1 (mergeStore sources).length := by
    rw [mergeStore_eq_flat]
    exact foldl_insertRow_ids _ [] (by simp)
  refine ⟨hids, ?_, ?_⟩
  · rw [hids]; exact List.pairwise_lt_range' 1 _
  · rw [mergeStore_eq_foldl, mergeStore_eq_foldl, List.foldl_append]
    exact foldl_insert_new_rows_extends more _

/-- C5.  Duplicate-removed accounting: the reported count is the sum of the
per-source input row counts minus the final merged row count (which never
exceeds that sum); on three five-row sources with three cross-source
duplicate identities the merged count is 12 and the reported count is 3. -/
theorem merge_duplicate_accounting (sources : List (List Row)) :
    per_file_counts sources = sources.map List.length ∧
    merged_rows sources ≤ total_input_rows sources ∧
    duplicate_rows_removed sources =
      (sources.map List.length).sum - merged_rows sources ∧
    (per_file_counts exampleSources = [5, 5, 5] ∧
      merged_rows exampleSources = 12 ∧
      duplicate_rows_removed exampleSources = 3) := by
  have hsum : total_input_rows sources = (sources.map List.length).sum := by
    rw [total_input_rows, per_file_counts_eq]
  have hle : merged_rows sources ≤ total_input_rows sources := by
    rw [merged_rows, mergeStore_eq_flat, hsum]
    have h1 := foldl_insertRow_length ((processedOrder sources).map Row.attrs) []
    simp only [List.length_nil, Nat.zero_add, List.length_map] at h1
    refine le_trans h1 ?_
    rw [processedOrder, List.length_flatten, List.map_map]
    apply le_of_eq
    congr 1
    apply List.map_congr_left
    intro s _
    exact (sortById_perm s).length_eq
  refine ⟨per_file_counts_eq sources, hle, ?_, by decide⟩
  rw [duplicate_rows_removed, hsum]

/-- C7.  Idempotent replace: rerunning the merge on the final destination
state of a previous identical run reproduces that run exactly, and the run
result never depends on what was stored at the destination beforehand,
because the destination is cleared before merging starts. -/
theorem merge_idempotent_replace (fs : ListFS) (cwd : String)
    (contents : String → List Row) (prev : Option (List MergedRow)) :
    mainMerge fs cwd contents (mainMerge fs cwd contents prev).2 =
      mainMerge fs cwd contents prev ∧
    (mainMerge fs cwd contents prev).1 = (mainMerge fs cwd contents none).1 := by
  cases h : read_sqlite_paths fs cwd <;> cases prev <;>
    simp [mainMerge, h, clearOutput, connectStore]

theorem canonVal_safe_injective (v w : SQLiteVal) (hv : safeVal v = true)
    (hw : safeVal w = true) (h : canonVal v = canonVal w) : v = w := by
  cases v <;> cases w <;> simp_all [safeVal, canonVal]

theorem canonKey_safe_inj : ∀ (a b : List SQLiteVal),
    (∀ v ∈ a, safeVal v = true) → (∀ v ∈ b, safeVal v = true) →
    canonKey a = canonKey b → a = b
  | [], [], _, _, _ => rfl
  | [], _ :: _, _, _, h => by simp [canonKey] at h
  | _ :: _, [], _, _, h => by simp [canonKey] at h
  | v :: as, w :: bs, ha, hb, h => by
    simp only [canonKey, List.map_cons, List.cons.injEq] at h
    have h1 := canonVal_safe_injective v w (ha v (by simp)) (hb w (by simp)) h.1
    have h2 := canonKey_safe_inj as bs (fun x hx => ha x (by simp [hx]))
      (fun x hx => hb x (by simp [hx])) h.2
    rw [h1, h2]

/-- C2 counterexample.  The merge engine's duplicate test and the extraction
engine's grouping test are not the same relation: a NULL attribute and the
literal sentinel text are duplicates for the merge engine (one of the two
rows survives the merge) yet fall in different partitions for the extraction
engine (neither row is extracted). -/
theorem merge_extract_key_mismatch :
    mergeDupTest nullKey sentinelKey ∧
    ¬ extractGroupTest nullKey sentinelKey ∧
    (mergeStore [[⟨1, nullKey⟩], [⟨1, sentinelKey⟩]]).length = 1 ∧
    extract_duplicates_for_file [⟨1, nullKey⟩, ⟨2, sentinelKey⟩] = [] :=
  ⟨by decide, by decide, by decide, by decide⟩

/-- C2 amended.  Extraction-equality always implies merge-equality, and the
two tests coincide on records whose attributes are each NULL or a text value
other than the sentinel; in general the merge key is coarser (it conflates
NULL with the sentinel text, and storage classes with equal text casts). -/
theorem merge_extract_key_agreement (a b : List SQLiteVal)
    (ha : ∀ v ∈ a, safeVal v = true) (hb : ∀ v ∈ b, safeVal v = true) :
    (∀ x y : List SQLiteVal, extractGroupTest x y → mergeDupTest x y) ∧
    (mergeDupTest a b ↔ extractGroupTest a b) := by
  constructor
  · intro x y h
    simp only [extractGroupTest] at h
    simp only [mergeDupTest, h]
  · constructor
    · intro h
      exact canonKey_safe_inj a b ha hb h
    · intro h
      simp only [extractGroupTest] at h
      simp only [mergeDupTest, h]

theorem merge_extract_key_agreement_witness :
    ((∀ v ∈ mkAttrs "x", safeVal v = true) ∧ (∀ v ∈ nullKey, safeVal v = true)) ∧
    ((∀ x y : List SQLiteVal, extractGroupTest x y → mergeDupTest x y) ∧
      (mergeDupTest (mkAttrs "x") nullKey ↔ extractGroupTest (mkAttrs "x") nullKey)) :=
  ⟨⟨by decide, by decide⟩,
    merge_extract_key_agreement (mkAttrs "x") nullKey (by decide) (by decide)⟩

/-- C3.  NULL-equality in the identity key: NULL canonicalizes to the fixed
sentinel, so two records with identical attributes, some of them NULL, are
duplicates for the merge engine and only one survives. -/
theorem merge_null_equality (r1 r2 : Row) (heq : r1.attrs = r2.attrs)
    (hnull : SQLiteVal.vNull ∈ r1.attrs) :
    canonVal SQLiteVal.vNull = "__NULL__" ∧
    (mergeStore [[r1], [r2]]).length = 1 := by
  refine ⟨rfl, ?_⟩
  have h1 : mergeStore [[r1], [r2]] = insertRow (insertRow [] r1.attrs) r2.attrs := by
    rw [mergeStore_eq_flat]
    rfl
  have h2 : insertRow [] r1.attrs = [(1, r1.attrs)] := by
    unfold insertRow
    rw [if_neg (by simp)]
    simp
  rw [h1, h2]
  unfold insertRow
  rw [if_pos ⟨(1, r1.attrs), by simp, by rw [heq]⟩]
  rfl

theorem merge_null_equality_witness :
    ((⟨1, nullKey⟩ : Row).attrs = (⟨7, nullKey⟩ : Row).attrs ∧
      SQLiteVal.vNull ∈ (⟨1, nullKey⟩ : Row).attrs) ∧
    (canonVal SQLiteVal.vNull = "__NULL__" ∧
      (mergeStore [[⟨1, nullKey⟩], [⟨7, nullKey⟩]]).length = 1) :=
  ⟨⟨rfl, by decide⟩, merge_null_equality ⟨1, nullKey⟩ ⟨7, nullKey⟩ rfl (by decide)⟩

/-- C8 failing input.  A relative path in the input list is accepted whenever
it resolves (against the working directory) to an existing file: the
absolute-path check of `read_sqlite_paths` is unreachable because
`Path(line).resolve()` always yields an absolute path, so the run proceeds
instead of failing. -/
theorem relative_path_accepted :
    read_sqlite_paths ⟨some ["rel/QTS1.sqlite"], ["/work/rel/QTS1.sqlite"]⟩ "/work" =
      Except.ok ["/work/rel/QTS1.sqlite"] := by
  rfl

theorem read_paths_foldl (fs : ListFS) (cwd : String) :
    ∀ (lines : List String) (acc : List String),
      (∀ l ∈ lines, stripString l ≠ "" → isAbsolutePath (stripString l) = true ∧ stripString l ∈ fs.existing) →
      lines.foldl (readListStep fs cwd) (Except.ok acc) =
        Except.ok (acc ++ (lines.map stripString).filter (fun s => decide (s ≠ ""))) := by
  intro lines
  induction lines with
  | nil => intro acc _; simp
  | cons l ls ih =>
    intro acc hgood
    by_cases hb : stripString l = ""
    · have hstep : readListStep fs cwd (Except.ok acc) l = Except.ok acc := by
        simp [readListStep, hb]
      have : (l :: ls).foldl (readListStep fs cwd) (Except.ok acc) =
          ls.foldl (readListStep fs cwd) (Except.ok acc) := by
        rw [List.foldl_cons, hstep]
      rw [this, ih acc (fun x hx => hgood x (List.mem_cons_of_mem l hx))]
      simp [hb]
    · obtain ⟨habs, hex⟩ := hgood l (List.mem_cons_self l ls) hb
      have hstep : readListStep fs cwd (Except.ok acc) l = Except.ok (acc ++ [stripString l]) := by
        simp [readListStep, hb, resolvePath, habs, hex]
      have : (l :: ls).foldl (readListStep fs cwd) (Except.ok acc) =
          ls.foldl (readListStep fs cwd) (Except.ok (acc ++ [stripString l])) := by
        rw [List.foldl_cons, hstep]
      rw [this, ih (acc ++ [stripString l]) (fun x hx => hgood x (List.mem_cons_of_mem l hx))]
      simp [hb]

/-- C10.  Blank and whitespace-only lines of the input list are silently
skipped by the identical readers of both engines: when every non-blank line
is an existing absolute path the collected list is exactly the non-blank
lines (trimmed) in order, and a list file of only blank lines fails exactly
like an empty one. -/
theorem blank_lines_skipped (fs : ListFS) (cwd : String) (lines : List String)
    (hfile : fs.listFile = some lines)
    (hgood : ∀ l ∈ lines, stripString l ≠ "" → isAbsolutePath (stripString l) = true ∧ stripString l ∈ fs.existing) :
    read_sqlite_paths_extractor fs cwd = read_sqlite_paths fs cwd ∧
    read_sqlite_paths fs cwd =
      (if (lines.map stripString).filter (fun s => decide (s ≠ "")) = []
        then Except.error "Input list file has no SQLite paths"
        else Except.ok ((lines.map stripString).filter (fun s => decide (s ≠ "")))) := by
  refine ⟨rfl, ?_⟩
  have hmain : read_sqlite_paths fs cwd =
      match lines.foldl (readListStep fs cwd) (Except.ok []) with
      | Except.error e => Except.error e
      | Except.ok [] => Except.error "Input list file has no SQLite paths"
      | Except.ok paths => Except.ok paths := by
    unfold read_sqlite_paths
    rw [hfile]
  rw [hmain, read_paths_foldl fs cwd lines [] hgood]
  simp only [List.nil_append]
  by_cases hc : (lines.map stripString).filter (fun s => decide (s ≠ "")) = []
  · rw [hc]
    simp
  · obtain ⟨x, xs, hxx⟩ := List.exists_cons_of_ne_nil hc
    rw [hxx]
    rw [if_neg (by rw [hxx] at hc; exact hc)]

theorem blank_lines_skipped_witness :
    ((⟨some ["", "   ", "/a.sqlite"], ["/a.sqlite"]⟩ : ListFS).listFile =
        some ["", "   ", "/a.sqlite"] ∧
      (∀ l ∈ ["", "   ", "/a.sqlite"], stripString l ≠ "" →
        isAbsolutePath (stripString l) = true ∧
          stripString l ∈ (⟨some ["", "   ", "/a.sqlite"], ["/a.sqlite"]⟩ : ListFS).existing)) ∧
    (read_sqlite_paths_extractor ⟨some ["", "   ", "/a.sqlite"], ["/a.sqlite"]⟩ "/w" =
        read_sqlite_paths ⟨some ["", "   ", "/a.sqlite"], ["/a.sqlite"]⟩ "/w" ∧
      read_sqlite_paths ⟨some ["", "   ", "/a.sqlite"], ["/a.sqlite"]⟩ "/w" =
        (if (["", "   ", "/a.sqlite"].map stripString).filter (fun s => decide (s ≠ "")) = []
          then Except.error "Input list file has no SQLite paths"
          else Except.ok ((["", "   ", "/a.sqlite"].map stripString).filter
            (fun s => decide (s ≠ ""))))) :=
  ⟨⟨rfl, by decide⟩,
    blank_lines_skipped ⟨some ["", "   ", "/a.sqlite"], ["/a.sqlite"]⟩ "/w"
      ["", "   ", "/a.sqlite"] rfl (by decide)⟩

theorem foldl_insertRow_filter (k : List String) (l : List (List SQLiteVal)) :
    ∀ st : List MergedRow,
      (storeAttrs (l.foldl insertRow st)).filter (fun a => decide (canonKey a = k)) =
        (storeAttrs st).filter (fun a => decide (canonKey a = k)) ++
          (if ∃ p ∈ st, canonKey p.2 = k then []
            else (l.filter (fun a => decide (canonKey a = k))).take 1) := by
  induction l with
  | nil =>
    intro st
    by_cases h : ∃ p ∈ st, canonKey p.2 = k <;> simp [h]
  | cons a l ih =>
    intro st
    show (storeAttrs (List.foldl insertRow (insertRow st a) l)).filter _ = _
    rw [ih (insertRow st a)]
    by_cases hak : canonKey a = k
    · by_cases hst : ∃ p ∈ st, canonKey p.2 = k
      · have hin : insertRow st a = st := by
          unfold insertRow
          rw [if_pos]
          obtain ⟨p, hp, hpk⟩ := hst
          exact ⟨p, hp, by rw [hpk, hak]⟩
        rw [hin, if_pos hst, if_pos hst]
      · have hnot : ¬ ∃ p ∈ st, canonKey p.2 = canonKey a := by
          rw [hak]; exact hst
        have hin : insertRow st a = st ++ [(st.length + 1, a)] := by
          unfold insertRow
          rw [if_neg hnot]
        have hkey : ∃ p ∈ insertRow st a, canonKey p.2 = k := by
          rw [hin]
          exact ⟨(st.length + 1, a), by simp, hak⟩
        rw [if_pos hkey, if_neg hst, hin]
        simp [storeAttrs, List.filter_append, List.filter_cons, hak]
    · have hfilt : (storeAttrs (insertRow st a)).filter (fun x => decide (canonKey x = k)) =
          (storeAttrs st).filter (fun x => decide (canonKey x = k)) := by
        unfold insertRow
        split
        · rfl
        · simp [storeAttrs, List.filter_append, hak]
      have hkeq : (∃ p ∈ insertRow st a, canonKey p.2 = k) ↔ (∃ p ∈ st, canonKey p.2 = k) := by
        unfold insertRow
        split
        · exact Iff.rfl
        · constructor
          · rintro ⟨p, hp, hpk⟩
            rcases List.mem_append.1 hp with h | h
            · exact ⟨p, h, hpk⟩
            · simp at h
              rw [h] at hpk
              exact absurd hpk hak
          · rintro ⟨p, hp, hpk⟩
            exact ⟨p, List.mem_append_left _ hp, hpk⟩
      rw [hfilt]
      have hfl : (a :: l).filter (fun x => decide (canonKey x = k)) =
          l.filter (fun x => decide (canonKey x = k)) := by
        simp [List.filter_cons, hak]
      rw [hfl]
      by_cases hst : ∃ p ∈ st, canonKey p.2 = k
      · rw [if_pos (hkeq.2 hst), if_pos hst]
      · rw [if_neg (fun hx => hst (hkeq.1 hx)), if_neg hst]

/-- C1.  Order-sensitive first-writer-wins: for any identity key, when the
records the merge engine encounters with that key (sources in list order,
each read in ascending original id) start with `first`, the merged output
holds exactly one row for the key, and it is `first`'s row; in particular
merging [A, B] keeps A's record for a shared key and merging [B, A] keeps
B's. -/
theorem merge_first_writer_wins (sources : List (List Row)) (k : List String)
    (first : Row) (rest : List Row)
    (hocc : (processedOrder sources).filter (fun r => decide (canonKey r.attrs = k)) =
      first :: rest) :
    (storeAttrs (mergeStore sources)).filter (fun a => decide (canonKey a = k)) =
      [first.attrs] := by
  have h1 := foldl_insertRow_filter k ((processedOrder sources).map Row.attrs) []
  rw [← mergeStore_eq_flat] at h1
  simp only [storeAttrs, List.map_nil, List.filter_nil, List.nil_append] at h1
  rw [storeAttrs, h1, if_neg (by simp)]
  have hcomp : ((processedOrder sources).map Row.attrs).filter
      (fun a => decide (canonKey a = k)) =
      ((processedOrder sources).filter (fun r => decide (canonKey r.attrs = k))).map
        Row.attrs := by
    rw [List.filter_map]
    rfl
  rw [hcomp, hocc]
  rfl

theorem merge_first_writer_wins_witness :
    ((processedOrder [[⟨1, nullKey⟩], [⟨1, sentinelKey⟩]]).filter
        (fun r => decide (canonKey r.attrs = canonKey nullKey)) =
        (⟨1, nullKey⟩ : Row) :: [⟨1, sentinelKey⟩] ∧
      (storeAttrs (mergeStore [[⟨1, nullKey⟩], [⟨1, sentinelKey⟩]])).filter
        (fun a => decide (canonKey a = canonKey nullKey)) = [nullKey]) ∧
    ((processedOrder [[⟨1, sentinelKey⟩], [⟨1, nullKey⟩]]).filter
        (fun r => decide (canonKey r.attrs = canonKey nullKey)) =
        (⟨1, sentinelKey⟩ : Row) :: [⟨1, nullKey⟩] ∧
      (storeAttrs (mergeStore [[⟨1, sentinelKey⟩], [⟨1, nullKey⟩]])).filter
        (fun a => decide (canonKey a = canonKey nullKey)) = [sentinelKey]) :=
  ⟨⟨by decide,
      merge_first_writer_wins [[⟨1, nullKey⟩], [⟨1, sentinelKey⟩]] (canonKey nullKey)
        ⟨1, nullKey⟩ [⟨1, sentinelKey⟩] (by decide)⟩,
    ⟨by decide,
      merge_first_writer_wins [[⟨1, sentinelKey⟩], [⟨1, nullKey⟩]] (canonKey nullKey)
        ⟨1, sentinelKey⟩ [⟨1, nullKey⟩] (by decide)⟩⟩

theorem sortById_nodup_ids (l : List Row) (h : (l.map Row.id).Nodup) :
    ((sortById l).map Row.id).Nodup :=
  (((sortById_perm l).map Row.id).nodup_iff).2 h

theorem sortById_pairwise_lt (l : List Row) (h : (l.map Row.id).Nodup) :
    (sortById l).Pairwise (fun a b => a.id < b.id) := by
  have hs : (sortById l).Pairwise (fun a b => a.id ≤ b.id) := sortById_sorted l
  have hn : (sortById l).Pairwise (fun a b => a.id ≠ b.id) :=
    List.pairwise_map.1 (sortById_nodup_ids l h)
  exact (hs.and hn).imp (fun hx => Nat.lt_of_le_of_ne hx.1 hx.2)

theorem group_nodup_ids (rows : List Row) (r0 : Row) (hid : (rows.map Row.id).Nodup) :
    ((groupRows rows r0).map Row.id).Nodup :=
  ((List.filter_sublist rows).map Row.id).nodup hid

theorem filter_low_rank (s : List Row) (hp : s.Pairwise (fun a b => a.id < b.id)) :
    s.filter (fun r => decide (s.countP (fun x => decide (x.id < r.id)) < 2)) = s.take 2 := by
  cases s with
  | nil => rfl
  | cons a s1 =>
    cases s1 with
    | nil =>
      have h0 : List.countP (fun x => decide (x.id < a.id)) [a] = 0 := by
        rw [List.countP_eq_zero]
        intro x hx
        simp at hx
        subst hx
        simp
      rw [List.filter_cons_of_pos (by simp [h0])]
      rfl
    | cons b t =>
      obtain ⟨ha, hp1⟩ := List.pairwise_cons.1 hp
      obtain ⟨hb, hp2⟩ := List.pairwise_cons.1 hp1
      have hab : a.id < b.id := ha b (by simp)
      have hat : ∀ x ∈ t, a.id < x.id := fun x hx => ha x (by simp [hx])
      have hca : (a :: b :: t).countP (fun x => decide (x.id < a.id)) = 0 := by
        rw [List.countP_eq_zero]
        intro x hx
        rcases List.mem_cons.1 hx with rfl | hx
        · simp
        rcases List.mem_cons.1 hx with rfl | hx
        · simp
          omega
        · have := hat x hx
          simp
          omega
      have hcb : (a :: b :: t).countP (fun x => decide (x.id < b.id)) = 1 := by
        have h1 : (b :: t).countP (fun x => decide (x.id < b.id)) = 0 := by
          rw [List.countP_eq_zero]
          intro x hx
          rcases List.mem_cons.1 hx with rfl | hx
          · simp
          · have := hb x hx
            simp
            omega
        rw [List.countP_cons_of_pos _ _ (by simp [hab]), h1]
      have hct : ∀ r ∈ t,
          ¬ ((a :: b :: t).countP (fun x => decide (x.id < r.id)) < 2) := by
        intro r hr
        have h1 : (a :: b :: t).countP (fun x => decide (x.id < r.id)) =
            (b :: t).countP (fun x => decide (x.id < r.id)) + 1 :=
          List.countP_cons_of_pos _ _ (by simp [hat r hr])
        have h2 : (b :: t).countP (fun x => decide (x.id < r.id)) =
            t.countP (fun x => decide (x.id < r.id)) + 1 :=
          List.countP_cons_of_pos _ _ (by simp [hb r hr])
        omega
      have hft : t.filter
          (fun r => decide ((a :: b :: t).countP (fun x => decide (x.id < r.id)) < 2)) = [] :=
        List.filter_eq_nil_iff.2 (fun r hr => by simpa using hct r hr)
      rw [List.filter_cons_of_pos (by simp [hca]), List.filter_cons_of_pos (by simp [hcb]), hft]
      rfl

theorem kept_filter_group (rows : List Row) (r0 : Row) :
    (rows.filter (fun r => decide (1 < grpCount rows r ∧ rowNumber rows r ≤ 2))).filter
        (fun s => decide (s.attrs = r0.attrs)) =
      (groupRows rows r0).filter
        (fun s => decide (1 < (groupRows rows r0).length ∧
          (groupRows rows r0).countP (fun x => decide (x.id < s.id)) < 2)) := by
  rw [List.filter_filter]
  rw [groupRows, List.filter_filter]
  apply List.filter_congr
  intro x _
  apply Bool.eq_iff_iff.mpr
  simp only [Bool.and_eq_true, decide_eq_true_eq, grpCount, rowNumber, groupRows]
  constructor
  · rintro ⟨hxa, h1, h2⟩
    rw [hxa] at h1 h2
    exact ⟨⟨h1, by omega⟩, hxa⟩
  · rintro ⟨⟨h1, h2⟩, hxa⟩
    rw [hxa]
    exact ⟨rfl, h1, by omega⟩

theorem kept_group_perm (rows : List Row) (r0 : Row) (hid : (rows.map Row.id).Nodup)
    (hbig : 2 ≤ (groupRows rows r0).length) :
    List.Perm
      ((extract_duplicates_for_file rows).filter (fun s => decide (s.attrs = r0.attrs)))
      ((sortById (groupRows rows r0)).take 2) := by
  have hp1 : List.Perm
      ((extract_duplicates_for_file rows).filter (fun s => decide (s.attrs = r0.attrs)))
      ((rows.filter (fun r => decide (1 < grpCount rows r ∧ rowNumber rows r ≤ 2))).filter
        (fun s => decide (s.attrs = r0.attrs))) :=
    (sortById_perm _).filter _
  rw [kept_filter_group rows r0] at hp1
  have hdrop : (groupRows rows r0).filter
      (fun s => decide (1 < (groupRows rows r0).length ∧
        (groupRows rows r0).countP (fun x => decide (x.id < s.id)) < 2)) =
      (groupRows rows r0).filter
        (fun s => decide ((groupRows rows r0).countP (fun x => decide (x.id < s.id)) < 2)) := by
    apply List.filter_congr
    intro x _
    rw [decide_eq_decide]
    constructor
    · intro hx
      exact hx.2
    · intro hx
      exact ⟨by omega, hx⟩
  rw [hdrop] at hp1
  have hp2 : List.Perm
      ((groupRows rows r0).filter
        (fun s => decide ((groupRows rows r0).countP (fun x => decide (x.id < s.id)) < 2)))
      ((sortById (groupRows rows r0)).filter
        (fun s => decide ((groupRows rows r0).countP (fun x => decide (x.id < s.id)) < 2))) :=
    ((sortById_perm (groupRows rows r0)).symm).filter _
  have hpred : (sortById (groupRows rows r0)).filter
      (fun s => decide ((groupRows rows r0).countP (fun x => decide (x.id < s.id)) < 2)) =
      (sortById (groupRows rows r0)).filter
        (fun s => decide ((sortById (groupRows rows r0)).countP
          (fun x => decide (x.id < s.id)) < 2)) := by
    apply List.filter_congr
    intro x _
    rw [decide_eq_decide]
    rw [(sortById_perm (groupRows rows r0)).countP_eq]
  have hlow := filter_low_rank (sortById (groupRows rows r0))
    (sortById_pairwise_lt _ (group_nodup_ids rows r0 hid))
  exact hp1.trans (hp2.trans (by rw [hpred, hlow]))

theorem kept_group_nil (rows : List Row) (r0 : Row)
    (hsmall : (groupRows rows r0).length ≤ 1) :
    (extract_duplicates_for_file rows).filter (fun s => decide (s.attrs = r0.attrs)) = [] := by
  have hp1 : List.Perm
      ((extract_duplicates_for_file rows).filter (fun s => decide (s.attrs = r0.attrs)))
      ((rows.filter (fun r => decide (1 < grpCount rows r ∧ rowNumber rows r ≤ 2))).filter
        (fun s => decide (s.attrs = r0.attrs))) :=
    (sortById_perm _).filter _
  rw [kept_filter_group rows r0] at hp1
  have hnil : (groupRows rows r0).filter
      (fun s => decide (1 < (groupRows rows r0).length ∧
        (groupRows rows r0).countP (fun x => decide (x.id < s.id)) < 2)) = [] :=
    List.filter_eq_nil_iff.2 (fun s _ => by simp; omega)
  rw [hnil] at hp1
  exact hp1.eq_nil

/-- C4.  Extraction cap: for a source with unique ids, a partition with at
least two members contributes exactly its two lowest-id members (2 rows, no
matter how large the partition), a partition with at most one member
contributes nothing, the original rows (hence ids) are preserved, and the
output is emitted in ascending id order. -/
theorem extraction_cap (rows : List Row) (hid : (rows.map Row.id).Nodup) (r0 : Row) :
    (2 ≤ (groupRows rows r0).length →
      List.Perm
        ((extract_duplicates_for_file rows).filter (fun s => decide (s.attrs = r0.attrs)))
        ((sortById (groupRows rows r0)).take 2) ∧
      ((extract_duplicates_for_file rows).filter
        (fun s => decide (s.attrs = r0.attrs))).length = 2) ∧
    ((groupRows rows r0).length ≤ 1 →
      (extract_duplicates_for_file rows).filter (fun s => decide (s.attrs = r0.attrs)) = []) ∧
    (∀ s ∈ extract_duplicates_for_file rows, s ∈ rows) ∧
    List.Sorted (fun a b => a.id ≤ b.id) (extract_duplicates_for_file rows) := by
  refine ⟨fun hbig => ?_, fun hsmall => kept_group_nil rows r0 hsmall, ?_, sortById_sorted _⟩
  · have hperm := kept_group_perm rows r0 hid hbig
    refine ⟨hperm, ?_⟩
    rw [hperm.length_eq, List.length_take, (sortById_perm _).length_eq]
    omega
  · intro s hs
    have hmem : s ∈ rows.filter
        (fun r => decide (1 < grpCount rows r ∧ rowNumber rows r ≤ 2)) :=
      ((sortById_perm _).mem_iff).1 hs
    exact List.mem_of_mem_filter hmem

theorem extraction_cap_witness :
    ((capRows.map Row.id).Nodup ∧
    ((2 ≤ (groupRows capRows capRep).length →
      List.Perm
        ((extract_duplicates_for_file capRows).filter
          (fun s => decide (s.attrs = capRep.attrs)))
        ((sortById (groupRows capRows capRep)).take 2) ∧
      ((extract_duplicates_for_file capRows).filter
        (fun s => decide (s.attrs = capRep.attrs))).length = 2) ∧
    ((groupRows capRows capRep).length ≤ 1 →
      (extract_duplicates_for_file capRows).filter
        (fun s => decide (s.attrs = capRep.attrs)) = []) ∧
    (∀ s ∈ extract_duplicates_for_file capRows, s ∈ capRows) ∧
    List.Sorted (fun a b => a.id ≤ b.id) (extract_duplicates_for_file capRows))) :=
  ⟨by decide, extraction_cap capRows (by decide) capRep⟩

theorem sum_map_two {α : Type} (l : List α) : (l.map (fun _ => 2)).sum = 2 * l.length := by
  induction l with
  | nil => rfl
  | cons a l ih =>
    simp [ih]
    omega

theorem kept_filter_length_two (rows : List Row) (hid : (rows.map Row.id).Nodup)
    (x : List SQLiteVal) (hbig : 2 ≤ (rows.filter (fun s => decide (s.attrs = x))).length) :
    ((rows.filter (fun r => decide (1 < grpCount rows r ∧ rowNumber rows r ≤ 2))).filter
      (fun s => decide (s.attrs = x))).length = 2 := by
  have hbig2 : 2 ≤ (groupRows rows ⟨0, x⟩).length := hbig
  have hperm := kept_group_perm rows ⟨0, x⟩ hid hbig2
  have h1 : List.Perm
      ((extract_duplicates_for_file rows).filter (fun s => decide (s.attrs = x)))
      ((rows.filter (fun r => decide (1 < grpCount rows r ∧ rowNumber rows r ≤ 2))).filter
        (fun s => decide (s.attrs = x))) :=
    (sortById_perm _).filter _
  calc ((rows.filter (fun r => decide (1 < grpCount rows r ∧ rowNumber rows r ≤ 2))).filter
        (fun s => decide (s.attrs = x))).length
      = ((extract_duplicates_for_file rows).filter
          (fun s => decide (s.attrs = x))).length := (h1.length_eq).symm
    _ = ((sortById (groupRows rows ⟨0, x⟩)).take 2).length := hperm.length_eq
    _ = 2 := by
        rw [List.length_take, (sortById_perm _).length_eq]
        omega

/-- C9.  Per-source extraction volume: the number of extracted rows is always
exactly twice the number of distinct identity-key groups of size at least 2
in the source, hence always even. -/
theorem extraction_output_even (rows : List Row) (hid : (rows.map Row.id).Nodup) :
    (extract_duplicates_for_file rows).length =
      2 * ((rows.map Row.attrs).dedup.countP
        (fun k => decide (2 ≤ rows.countP (fun s => decide (s.attrs = k))))) ∧
    2 ∣ (extract_duplicates_for_file rows).length := by
  have hlen1 : (extract_duplicates_for_file rows).length =
      (rows.filter (fun r => decide (1 < grpCount rows r ∧ rowNumber rows r ≤ 2))).length :=
    (sortById_perm _).length_eq
  have hmem : ∀ x : List SQLiteVal,
      x ∈ ((rows.filter (fun r => decide (1 < grpCount rows r ∧ rowNumber rows r ≤ 2))).map
        Row.attrs).dedup ↔
      (x ∈ (rows.map Row.attrs).dedup ∧
        2 ≤ rows.countP (fun s => decide (s.attrs = x))) := by
    intro x
    rw [List.mem_dedup, List.mem_dedup]
    constructor
    · intro hx
      obtain ⟨s, hs, hsx⟩ := List.mem_map.1 hx
      have hsr : s ∈ rows := List.mem_of_mem_filter hs
      have hkeep := List.of_mem_filter hs
      simp only [decide_eq_true_eq] at hkeep
      refine ⟨List.mem_map.2 ⟨s, hsr, hsx⟩, ?_⟩
      have h1 : grpCount rows s = (rows.filter (fun t => decide (t.attrs = x))).length := by
        rw [grpCount, groupRows, hsx]
      rw [List.countP_eq_length_filter]
      omega
    · rintro ⟨_, hcnt⟩
      rw [List.countP_eq_length_filter] at hcnt
      have h2 := kept_filter_length_two rows hid x hcnt
      have hne : (rows.filter
          (fun r => decide (1 < grpCount rows r ∧ rowNumber rows r ≤ 2))).filter
          (fun s => decide (s.attrs = x)) ≠ [] := by
        intro hnil
        rw [hnil] at h2
        simp at h2
      obtain ⟨s, hs⟩ := List.exists_mem_of_ne_nil _ hne
      have hs1 := List.mem_of_mem_filter hs
      have hs2 := List.of_mem_filter hs
      simp only [decide_eq_true_eq] at hs2
      exact List.mem_map.2 ⟨s, hs1, hs2⟩
  have hperm2 : List.Perm
      (((rows.filter (fun r => decide (1 < grpCount rows r ∧ rowNumber rows r ≤ 2))).map
        Row.attrs).dedup)
      (((rows.map Row.attrs).dedup).filter
        (fun k => decide (2 ≤ rows.countP (fun s => decide (s.attrs = k))))) := by
    apply (List.perm_ext_iff_of_nodup (List.nodup_dedup _)
      ((List.nodup_dedup _).filter _)).2
    intro x
    rw [List.mem_filter, hmem x]
    simp
  have hcnt2 : ∀ x ∈ ((rows.filter
      (fun r => decide (1 < grpCount rows r ∧ rowNumber rows r ≤ 2))).map Row.attrs).dedup,
      (((rows.filter (fun r => decide (1 < grpCount rows r ∧ rowNumber rows r ≤ 2))).map
        Row.attrs).countP (fun y => decide (y = x))) = 2 := by
    intro x hx
    rw [List.countP_map]
    have hx2 : 2 ≤ rows.countP (fun s => decide (s.attrs = x)) := ((hmem x).1 hx).2
    rw [List.countP_eq_length_filter] at hx2
    have h2 := kept_filter_length_two rows hid x hx2
    rw [List.countP_eq_length_filter]
    exact h2
  have hsum : ((((rows.filter
      (fun r => decide (1 < grpCount rows r ∧ rowNumber rows r ≤ 2))).map
        Row.attrs).dedup).map (fun x =>
          ((rows.filter (fun r => decide (1 < grpCount rows r ∧ rowNumber rows r ≤ 2))).map
            Row.attrs).countP (fun y => decide (y = x)))).sum =
      ((rows.filter (fun r => decide (1 < grpCount rows r ∧ rowNumber rows r ≤ 2))).map
        Row.attrs).length := by
    rw [← List.sum_map_count_dedup_eq_length]
    apply congrArg List.sum
    apply List.map_congr_left
    intro x _
    rfl
  rw [List.map_congr_left hcnt2, sum_map_two] at hsum
  have hfinal : (extract_duplicates_for_file rows).length =
      2 * ((rows.map Row.attrs).dedup.countP
        (fun k => decide (2 ≤ rows.countP (fun s => decide (s.attrs = k))))) := by
    rw [hlen1, ← List.length_map _ Row.attrs, ← hsum, hperm2.length_eq,
      List.countP_eq_length_filter]
  exact ⟨hfinal, ⟨_, hfinal⟩⟩

theorem extraction_output_even_witness :
    ((capRows.map Row.id).Nodup ∧
    ((extract_duplicates_for_file capRows).length =
      2 * ((capRows.map Row.attrs).dedup.countP
        (fun k => decide (2 ≤ capRows.countP (fun s => decide (s.attrs = k))))) ∧
    2 ∣ (extract_duplicates_for_file capRows).length)) :=
  ⟨by decide, extraction_output_even capRows (by decide)⟩

end Plotgen
